import Mathlib

/-!
# Verification of the `bingus-http` core (bingus-files repository)

Shallow embedding of the from-scratch HTTP/1.1 server stack:
header-name normalization (`header.rs`), the route token model and the
`cool_macro` route compiler (`proc-macro/src/lib.rs`), the route matcher
(`route.rs`), the request parser, request dispatch and the connection
handler (`http.rs`), and the response model (`response.rs`).

Conventions of the embedding:
* Byte streams are `List Char`; the async reader's `read_line` is the pure
  `readLine` below.  The 8 KiB `MAX_HEADER_SIZE` cap is an upstream I/O
  concern (hitting it surfaces exactly like end-of-stream) and is not
  modelled separately.
* Rust `usize` arithmetic that can panic or underflow is modelled with an
  explicit fault value: functions that can panic return `Option _` with
  `none` for the panic, and `scanTokens` has an explicit `.panic` result
  for an out-of-bounds index or an underflowing subtraction.
* `HashMap` (`Headers`, `Params`) is modelled as an association list with
  insert-overwrite semantics; iteration order of a `HashMap` is
  unspecified in Rust, list order here.
-/

deriving instance DecidableEq for Except

namespace Bingus

/-- `Method` from `method.rs`: the closed enum of request methods. -/
inductive Method where
  | GET | HEAD | POST | PUT | DELETE | CONNECT | OPTIONS | TRACE | PATCH
deriving DecidableEq, Repr

/-- `TryFrom<&str> for Method` from `method.rs`; the error carries the
offending token (`InvalidHeaderError`). -/
def Method.try_from (s : String) : Except String Method :=
  match s with
  | "GET" => .ok .GET
  | "HEAD" => .ok .HEAD
  | "POST" => .ok .POST
  | "PUT" => .ok .PUT
  | "DELETE" => .ok .DELETE
  | "CONNECT" => .ok .CONNECT
  | "OPTIONS" => .ok .OPTIONS
  | "TRACE" => .ok .TRACE
  | "PATCH" => .ok .PATCH
  | _ => .error s

/-- `RouteToken` from `route.rs`. -/
inductive RouteToken where
  | PATH (lit : String)
  | PARAMETER (name : String)
  | WILDCARD
deriving DecidableEq, Repr

/-- `Route` from `route.rs`: a method and an ordered token sequence. -/
structure Route where
  method : Method
  tokens : List RouteToken
deriving DecidableEq, Repr

/-- `required_tokens` computed at the head of the candidate loop in
`match_route`: the number of non-wildcard tokens. -/
def requiredTokens (ts : List RouteToken) : Nat :=
  (ts.filter (fun t => t ≠ RouteToken.WILDCARD)).length

/-- Result of walking one candidate's tokens against the path
(`route.rs` lines 45-61).  `.panic` models an out-of-bounds `path[index]`
or an underflowing `path.len() + 1 - index`; `.reject` models
`continue 'route` on a literal mismatch. -/
inductive ScanResult where
  | panic
  | reject
  | scores (p q w : Nat)
deriving DecidableEq, Repr

/-- The per-candidate token walk of `match_route` (`route.rs` 45-61):
`i` is the enumeration index, `p`/`q`/`w` accumulate `path_matches`,
`parameter_matches` and `wildcard_matches`. -/
def scanTokens (path : List String) : List RouteToken → Nat → Nat → Nat → Nat → ScanResult
  | [], _, p, q, w => .scores p q w
  | .PATH lit :: rest, i, p, q, w =>
    match path.get? i with
    | none => .panic
    | some seg => if lit = seg then scanTokens path rest (i + 1) (p + 1) q w else .reject
  | .PARAMETER _ :: rest, i, p, q, w => scanTokens path rest (i + 1) p (q + 1) w
  | .WILDCARD :: rest, i, p, q, w =>
    if path.length + 1 < i then .panic
    else scanTokens path rest (i + 1) p q (w + (path.length + 1 - i))

/-- The candidate loop of `match_route` (`route.rs` 30-84), carrying
`highest_path_matches`, `highest_parameter_matches`,
`highest_wildcard_matches` and `highest_route`. -/
def matchLoop (path : List String) :
    List Route → Nat → Nat → Nat → Option Route → Option (Option Route × Nat × Nat × Nat)
  | [], hp, hq, hw, best => some (best, hp, hq, hw)
  | r :: rs, hp, hq, hw, best =>
    if path.length < requiredTokens r.tokens then matchLoop path rs hp hq hw best
    else
      match scanTokens path r.tokens 0 0 0 0 with
      | .panic => none
      | .reject => matchLoop path rs hp hq hw best
      | .scores p q w =>
        if (path.length > p + q ∧ w = 0) ∨ (p = 0 ∧ q = 0 ∧ w = 0) then
          matchLoop path rs hp hq hw best
        else if p > hp ∨ (p = hp ∧ q > hq) ∨ (p = hp ∧ q = hq ∧ w < hw)
            ∨ (p = 0 ∧ hp = 0 ∧ q = 0 ∧ hq = 0 ∧ w > hw) then
          matchLoop path rs p q w (some r)
        else matchLoop path rs hp hq hw best

/-- `match_route` from `route.rs`: filter the table to the request method,
run the candidate loop, and return the best route with its three scores.
The outer `Option` is the panic model (`none` = a candidate walk panicked);
the inner `Option` is the function's own `Option` result. -/
def match_route (method : Method) (path : List String) (routes : List Route) :
    Option (Option (Route × Nat × Nat × Nat)) :=
  match matchLoop path (routes.filter (fun r => r.method = method)) 0 0 0 none with
  | none => none
  | some (none, _, _, _) => some none
  | some (some r, hp, hq, hw) => some (some (r, hp, hq, hw))

/-- `Params` from `lib.rs` (`HashMap<String, String>`), as an association
list with insert-overwrite semantics. -/
def Params := List (String × String)
deriving DecidableEq, Repr

/-- `HashMap::insert`: overwrite the value under an existing key, or
append a new entry. -/
def paramsInsert (ps : List (String × String)) (k v : String) : List (String × String) :=
  match ps with
  | [] => [(k, v)]
  | (k2, v2) :: rest => if k2 = k then (k, v) :: rest else (k2, v2) :: paramsInsert rest k v

/-- The parameter-extraction loop of `App::handle_request` (`http.rs`
261-268): for each `PARAMETER` token at enumeration index `i`, bind its
name to `path[index]`.  `none` models a panicking out-of-bounds index. -/
def extractParams (path : List String) :
    List RouteToken → Nat → List (String × String) → Option (List (String × String))
  | [], _, acc => some acc
  | .PARAMETER name :: rest, i, acc =>
    match path.get? i with
    | none => none
    | some seg => extractParams path rest (i + 1) (paramsInsert acc name seg)
  | _ :: rest, i, acc => extractParams path rest (i + 1) acc

/-- `if matched_params > 0` guard around the extraction loop
(`http.rs` 260). -/
def buildParams (matchedParams : Nat) (tokens : List RouteToken) (path : List String) :
    Option (List (String × String)) :=
  if matchedParams > 0 then extractParams path tokens 0 [] else some []

/-- Rust `str::split(sep)` on a character separator: splits at every
occurrence, keeping empty pieces; the empty string yields one empty
piece. -/
def splitOnChar (sep : Char) : List Char → List (List Char)
  | [] => [[]]
  | c :: cs =>
    if c = sep then [] :: splitOnChar sep cs
    else
      match splitOnChar sep cs with
      | [] => [[c]]
      | l :: ls => (c :: l) :: ls

/-- `str::trim_matches('/')`: strip leading and trailing `/` characters. -/
def trimMatchesSlash (s : List Char) : List Char :=
  ((s.dropWhile (fun c => c == '/')).reverse.dropWhile (fun c => c == '/')).reverse

/-- `request.path.trim_matches('/').split('/')` from `App::handle_request`
(`http.rs` 247). -/
def pathToSegments (s : String) : List String :=
  (splitOnChar '/' (trimMatchesSlash s.data)).map String.mk

/-- Observable outcome of the routing part of `App::handle_request`:
either a handler is invoked for a route with bound params, or no route
matched and the default response is returned. -/
inductive DispatchResult where
  | handled (r : Route) (params : List (String × String))
  | noRoute
deriving DecidableEq, Repr

/-- The routing and parameter-binding part of `App::handle_request`
(`http.rs` 242-288): split the path, run `match_route`, bind params for
the matched route (or report that no route matched, in which case the
default response is returned without invoking any handler).  `none`
models a panic. -/
def routeRequest (routes : List Route) (method : Method) (rawPath : String) :
    Option DispatchResult :=
  let path := pathToSegments rawPath
  match match_route method path routes with
  | none => none
  | some none => some .noRoute
  | some (some (r, _, matchedParams, _)) =>
    match buildParams matchedParams r.tokens path with
    | none => none
    | some params => some (.handled r params)

/-! ## Header names (`header.rs`) -/

/-- Models std `char::to_uppercase` as used by `HeaderName::from`.  For
ASCII characters (the only ones appearing in the claims) Rust's Unicode
uppercasing is exactly the single-character simple uppercase modelled
here. -/
def charToUppercase (c : Char) : List Char := [c.toUpper]

/-- One step of `HeaderName::from` (`header.rs` 17-27): uppercase the
first character of a hyphen-separated word and keep the rest unchanged
(`chars.as_str()` — the tail is *not* lowercased). -/
def upperFirstWord (w : List Char) : List Char :=
  match w with
  | [] => []
  | c :: cs => charToUppercase c ++ cs

/-- `HeaderName` from `header.rs`: a `String` wrapper; `PartialEq`,
`Eq` and `Hash` all delegate to the stored normalized string. -/
structure HeaderName where
  name : String
deriving DecidableEq, Repr

/-- `HeaderName::from` (`header.rs` 15-30): split on `-`, uppercase each
word's first character, rejoin with `-`. -/
def HeaderName.fromString (s : String) : HeaderName :=
  ⟨String.mk (List.intercalate ['-'] ((splitOnChar '-' s.data).map upperFirstWord))⟩

/-- `Headers` (`HashMap<HeaderName, String>`) insert: overwrite the value
under an equal key, else add the entry. -/
def headersInsert (hs : List (HeaderName × String)) (k : HeaderName) (v : String) :
    List (HeaderName × String) :=
  match hs with
  | [] => [(k, v)]
  | (k2, v2) :: rest => if k2 = k then (k, v) :: rest else (k2, v2) :: headersInsert rest k v

/-! ## Request parsing (`http.rs`) -/

def MAX_PATH_LEN : Nat := 2048

/-- `ParsingError` from `http.rs`.  `IOError`'s payload and the
`MethodTooLong` variant (declared but never produced by `parse_http`)
are carried without further structure. -/
inductive ParsingError where
  | IOError
  | NullRequest
  | Interrupted
  | InvalidFirstLine
  | MethodTooLong (limit n : Nat)
  | InvalidMethod (token : String)
  | PathTooLong (limit n : Nat)
  | InvalidPath (path : String)
deriving DecidableEq, Repr

/-- Decomposition of a byte stream into the successive results of
`read_line`: each element is one physical line, including its trailing
`'\n'` when present; the final element may lack the newline (end of
stream).  After these, `read_line` returns the empty string (EOF), which
is the `[]` case of the consumer below. -/
def streamLines : List Char → List (List Char)
  | [] => []
  | c :: cs =>
    if c = '\n' then [c] :: streamLines cs
    else
      match streamLines cs with
      | [] => [[c]]
      | l :: ls => (c :: l) :: ls

/-- `line.trim_end_matches(&['\r', '\n'])` (`http.rs` 94). -/
def trimCRLF (l : List Char) : List Char :=
  (l.reverse.dropWhile (fun c => c == '\r' || c == '\n')).reverse

/-- The header-reading loop of `parse_http` (`http.rs` 75-106), consuming
the stream's `read_line` results in order with the collected `lines`
accumulated (in reverse).  Running out of physical lines is `read_line`
returning an empty string (EOF) ⇒ `Interrupted`; a line that trims to
empty ends the headers, except that a blank *first* line is
`NullRequest`. -/
def collectHeaderLines : List (List Char) → List String → Except ParsingError (List String)
  | [], _ => .error .Interrupted
  | l :: rest, lines =>
    let trimmed := trimCRLF l
    if trimmed = [] then
      if lines = [] then .error .NullRequest else .ok lines.reverse
    else collectHeaderLines rest (String.mk trimmed :: lines)

/-- Rust byte length (`str::len`) of the UTF-8 encoding. -/
def byteLen (s : List Char) : Nat := (s.map Char.utf8Size).sum

/-- `tokens[1].splitn(2, '?')` (`http.rs` 122-130): the part before the
first `'?'`, and — when a `'?'` occurs — everything after it. -/
def splitn2Question : List Char → List Char × Option (List Char)
  | [] => ([], none)
  | c :: cs =>
    if c = '?' then ([], some cs)
    else
      let r := splitn2Question cs
      (c :: r.1, r.2)

/-- Parsing of the request line (`http.rs` 110-136): split on single
spaces into exactly 3 tokens, parse the method, split off the query, and
check the path's byte length and leading `/`. -/
def parseRequestLine (line : String) : Except ParsingError (Method × String × Option String) :=
  match (splitOnChar ' ' line.data).map String.mk with
  | [t0, t1, _t2] =>
    match Method.try_from t0 with
    | .error e => .error (.InvalidMethod e)
    | .ok m =>
      let pq := splitn2Question t1.data
      if byteLen pq.1 > MAX_PATH_LEN then .error (.PathTooLong MAX_PATH_LEN (byteLen pq.1))
      else if pq.1 = [] ∨ pq.1.head? ≠ some '/' then .error (.InvalidPath (String.mk pq.1))
      else .ok (m, String.mk pq.1, pq.2.map String.mk)
  | _ => .error .InvalidFirstLine

/-- `str::trim` of both sides, on the ASCII whitespace relevant here. -/
def rustTrim (s : List Char) : List Char :=
  ((s.dropWhile Char.isWhitespace).reverse.dropWhile Char.isWhitespace).reverse

/-- `header.split_once(':')`: the parts before and after the first `:`,
or `none` when the line holds no `:`. -/
def splitOnceColon : List Char → Option (List Char × List Char)
  | [] => none
  | c :: cs =>
    if c = ':' then some ([], cs)
    else (splitOnceColon cs).map (fun r => (c :: r.1, r.2))

/-- One header line (`http.rs` 138-147): split at the first `:`, trim
both sides, drop the line if there is no `:` or the name trims to empty,
otherwise insert under the normalized name. -/
def parseHeaderLine (headers : List (HeaderName × String)) (line : String) :
    List (HeaderName × String) :=
  match splitOnceColon line.data with
  | some (n, v) =>
    let name := rustTrim n
    let value := rustTrim v
    if name ≠ [] then headersInsert headers (HeaderName.fromString (String.mk name)) (String.mk value)
    else headers
  | none => headers

def parseHeaders (lines : List String) : List (HeaderName × String) :=
  lines.foldl parseHeaderLine []

/-- `HTTPRequest` from `http.rs` (the `body` field, a raw stream handle,
is the unread remainder of the connection and carries no parsed
structure). -/
structure HTTPRequest where
  headers : List (HeaderName × String)
  method : Method
  path : String
  query : Option String
deriving DecidableEq, Repr

/-- `parse_http` (`http.rs` 68-155).  The outer `Option` models panics:
`none` is the `lines.next().unwrap()` on an empty collected-line list
(unreachable: the loop fails with `NullRequest` instead). -/
def parse_http (s : List Char) : Option (Except ParsingError HTTPRequest) :=
  match collectHeaderLines (streamLines s) [] with
  | .error e => some (.error e)
  | .ok [] => none
  | .ok (first :: rest) =>
    some (match parseRequestLine first with
      | .error e => .error e
      | .ok (m, path, query) =>
        .ok { headers := parseHeaders rest, method := m, path := path, query := query })

/-! ## Responses (`response.rs`) and serialization (`http.rs`) -/

/-- Modelled from the spec: `status.rs` (the `StatusText` impl providing
`to_status_text`) is not among the provided sources.  Spec §6 gives the
status-line format `HTTP/1.1 <code> <reason>`, and §4.5 says a bare
status-code response's body is the code's canonical reason text followed
by a newline; so `to_status_text` is modelled as `"<code> <reason>"`,
with the reason phrase supplied for status 200 (`OK`), the only code the
core itself produces. -/
def toStatusText (code : Nat) : String :=
  toString code ++ " " ++ (match code with | 200 => "OK" | _ => "UNKNOWN")

/-- `Response` from `response.rs`, with the body stream abstracted to the
string it holds. -/
structure Response where
  headers : List (HeaderName × String)
  status_code : Nat
  body : String
deriving DecidableEq, Repr

/-- `From<u32> for Response` (`response.rs` 33-45). -/
def Response.fromCode (code : Nat) : Response :=
  let s := toStatusText code ++ "\n"
  { headers := [(HeaderName.fromString "Content-Type", "text/plain"),
                (HeaderName.fromString "Content-Length", toString (byteLen s.data))],
    status_code := code,
    body := s }

/-- `Default for Response` (`response.rs` 47-52): `Self::from(200)`. -/
def Response.default : Response := Response.fromCode 200

/-- `Method` → wire token (`From<Method> for &str`, `method.rs`). -/
def Method.intoStr : Method → String
  | .GET => "GET"
  | .HEAD => "HEAD"
  | .POST => "POST"
  | .PUT => "PUT"
  | .DELETE => "DELETE"
  | .CONNECT => "CONNECT"
  | .OPTIONS => "OPTIONS"
  | .TRACE => "TRACE"
  | .PATCH => "PATCH"

/-- `write_response` (`http.rs` 157-181) as the byte string it writes:
status line, headers (association-list order standing in for the
`HashMap`'s unspecified iteration order), blank line, body. -/
def write_response (r : Response) : String :=
  "HTTP/1.1 " ++ toStatusText r.status_code ++ "\r\n"
    ++ String.join (r.headers.map (fun h => h.1.name ++ ": " ++ h.2 ++ "\r\n"))
    ++ "\r\n" ++ r.body

/-! ## Dispatch and the connection handler (`http.rs`) -/

/-- `HTTPError` from `http.rs`; handler failures (`anyhow::Error`) carry
their message. -/
inductive HTTPError where
  | IOError
  | ParsingError (e : ParsingError)
  | HandlingError (msg : String)
deriving DecidableEq, Repr

/-- `App::handle_request` (`http.rs` 242-288) with the handler table
abstracted: `handlers` models looking up the matched route's registered
handler in the `BTreeMap` and calling it.  `none` models a panic in
routing or parameter binding. -/
def handleRequestApp (routes : List Route)
    (handlers : Route → List (String × String) → HTTPRequest → Except String Response)
    (req : HTTPRequest) : Option (Except String Response) :=
  match routeRequest routes req.method req.path with
  | none => none
  | some .noRoute => some (.ok Response.default)
  | some (.handled r params) => some (handlers r params req)

/-- `App::handle_connection` (`http.rs` 290-315): parse off the read
half; on parse failure the error propagates (`?`) with nothing written;
on handler failure likewise; on success the serialized response is the
written bytes and the log line is returned.  The second component is the
full sequence of bytes written to the connection (terminal styling of the
log line is not modelled). -/
def handle_connection (routes : List Route)
    (handlers : Route → List (String × String) → HTTPRequest → Except String Response)
    (s : List Char) : Option (Except HTTPError String × String) :=
  match parse_http s with
  | none => none
  | some (.error e) => some (.error (.ParsingError e), "")
  | some (.ok req) =>
    match handleRequestApp routes handlers req with
    | none => none
    | some (.error e) => some (.error (.HandlingError e), "")
    | some (.ok resp) =>
      some (.ok (toString resp.status_code ++ " " ++ req.method.intoStr ++ " " ++ req.path),
        write_response resp)

/-! ## The route compiler (`proc-macro/src/lib.rs`) -/

/-- A token tree of the `cool_macro` input after the leading method
identifier: a punctuation character, an identifier, or any other token
tree (literal/group — always a compile error in the macro). -/
inductive DSLToken where
  | punct (c : Char)
  | ident (s : String)
  | other
deriving DecidableEq, Repr

/-- The token loop of `cool_macro` (`proc-macro/src/lib.rs` 31-82);
`none` models `panic!` (a compile error).  A `/` followed by a
punctuation character other than `*` or `:` is silently consumed (the
macro's if-chain has no else arm). -/
def coolMacroLoop : List DSLToken → List String → Bool → Option (List RouteToken)
  | [], _, _ => some []
  | t :: rest, vars, wildcardDefined =>
    if wildcardDefined then none
    else
      match t with
      | .punct c =>
        if c ≠ '/' then none
        else
          match rest with
          | [] => some [RouteToken.PATH ""]
          | .punct c2 :: rest2 =>
            if c2 = '*' then (coolMacroLoop rest2 vars true).map (RouteToken.WILDCARD :: ·)
            else if c2 = ':' then
              match rest2 with
              | .ident name :: rest3 =>
                if vars.contains name then none
                else (coolMacroLoop rest3 (vars ++ [name]) wildcardDefined).map
                  (RouteToken.PARAMETER name :: ·)
              | _ => none
            else coolMacroLoop rest2 vars wildcardDefined
          | .ident p :: rest2 => (coolMacroLoop rest2 vars wildcardDefined).map (RouteToken.PATH p :: ·)
          | .other :: _ => none
      | .ident _ => none
      | .other => none

/-- `cool_macro` (`proc-macro/src/lib.rs` 13-88): a method name followed
by route tokens compiles to a `Route`; `none` is a compile-time panic. -/
def cool_macro (method : Method) (toks : List DSLToken) : Option Route :=
  (coolMacroLoop toks [] false).map (fun ts => ⟨method, ts⟩)

/-- Well-formedness used by the safety claim: a `WILDCARD` occurs at most
once and only as the final token (what `cool_macro` enforces with
"wildcard must terminate path"). -/
def wildcardFinal : List RouteToken → Bool
  | [] => true
  | [_] => true
  | t :: r :: rs => if t = RouteToken.WILDCARD then false else wildcardFinal (r :: rs)

/-! ## Claim-specific definitions -/

/-- The route table of the end-to-end scenario (`GET /`, `GET /hello`,
`GET /:var`, `GET /hello/:var/*`), listed in the iteration order of the
`BTreeMap` route table: the derived `Ord` sorts token sequences
lexicographically with `PATH` literals by string, `PATH` before
`PARAMETER` before `WILDCARD`, and prefixes first. -/
def scenarioRoutes : List Route :=
  [⟨.GET, [.PATH ""]⟩,
   ⟨.GET, [.PATH "hello"]⟩,
   ⟨.GET, [.PATH "hello", .PARAMETER "var", .WILDCARD]⟩,
   ⟨.GET, [.PARAMETER "var"]⟩]

/-- A candidate survives the per-candidate rejection rules of
`match_route` for a request: same method, enough path segments, a
completed token walk (no literal mismatch), and not rejected by the
rule of `route.rs` lines 63-66. -/
def survives (method : Method) (path : List String) (r : Route) (p q w : Nat) : Prop :=
  r.method = method ∧ requiredTokens r.tokens ≤ path.length ∧
  scanTokens path r.tokens 0 0 0 0 = .scores p q w ∧
  ¬((path.length > p + q ∧ w = 0) ∨ (p = 0 ∧ q = 0 ∧ w = 0))

/-- Two hyphen-segment words differ at most in the case of their first
character: equal tails, first characters equal up to simple uppercase. -/
def wordRel (w v : List Char) : Bool :=
  match w, v with
  | [], [] => true
  | c :: cs, d :: ds => c.toUpper == d.toUpper && cs == ds
  | _, _ => false

/-- `wordRel`, segment-wise over the hyphen-split of two header names. -/
def segmentsRel : List (List Char) → List (List Char) → Bool
  | [], [] => true
  | w :: ws, v :: vs => wordRel w v && segmentsRel ws vs
  | _, _ => false

/-! ## Theorems -/

/-- C1: with `GET /`, `GET /hello`, `GET /:var`, `GET /hello/:var/*`
registered, requests to `/`, `/hello`, `/anything` and `/hello/x/y/z`
resolve through `match_route` and dispatch to the expected route with
Params `{}`, `{}`, `{var: "anything"}`, `{var: "x"}` respectively. -/
theorem end_to_end_scenario :
    routeRequest scenarioRoutes .GET "/" =
      some (.handled ⟨.GET, [.PATH ""]⟩ []) ∧
    routeRequest scenarioRoutes .GET "/hello" =
      some (.handled ⟨.GET, [.PATH "hello"]⟩ []) ∧
    routeRequest scenarioRoutes .GET "/anything" =
      some (.handled ⟨.GET, [.PARAMETER "var"]⟩ [("var", "anything")]) ∧
    routeRequest scenarioRoutes .GET "/hello/x/y/z" =
      some (.handled ⟨.GET, [.PATH "hello", .PARAMETER "var", .WILDCARD]⟩ [("var", "x")]) := by
  decide

/-- C4 counterexample: a bare method with no following tokens compiles to
an *empty* token sequence, not `[Path ""]`, and that empty route does not
match the root path (the rejection rule at `route.rs` 63-66 discards
it). -/
theorem bare_method_empty_tokens :
    cool_macro .GET [] = some ⟨.GET, []⟩ ∧
    some (Route.mk .GET []) ≠ some ⟨.GET, [RouteToken.PATH ""]⟩ ∧
    match_route .GET (pathToSegments "/") [⟨.GET, []⟩] = some none := by
  decide

/-- C4 amended: the minimal non-empty pattern — a single `/` with no
following segment — compiles to the single `Path("")` token, and that
route matches the root path; a bare method with no tokens at all yields
an empty token sequence that matches nothing. -/
theorem slash_pattern_matches_root :
    cool_macro .GET [.punct '/'] = some ⟨.GET, [RouteToken.PATH ""]⟩ ∧
    match_route .GET (pathToSegments "/") [⟨.GET, [RouteToken.PATH ""]⟩] =
      some (some (⟨.GET, [RouteToken.PATH ""]⟩, 1, 0, 0)) := by
  decide

/-- C5 counterexample: for the candidate `[Path "a", Wildcard]` on path
`["a", "b"]` (n = 2 segments, wildcard index i = 1) the code contributes
a wildcard score of `path.len() + 1 - i = 2`, while the claimed formula
`(remaining segment count) + 1 - i = (n - i) + 1 - i` yields 1. -/
theorem wildcard_score_counterexample :
    scanTokens ["a", "b"] [RouteToken.PATH "a", RouteToken.WILDCARD] 0 0 0 0 =
      .scores 1 0 2 ∧ (2 : Nat) ≠ (2 - 1) + 1 - 1 := by
  decide

theorem wordRel_upperFirst {w v : List Char} (h : wordRel w v = true) :
    upperFirstWord w = upperFirstWord v := by
  match w, v with
  | [], [] => rfl
  | [], _ :: _ => simp [wordRel] at h
  | _ :: _, [] => simp [wordRel] at h
  | c :: cs, d :: ds =>
    simp only [wordRel, Bool.and_eq_true, beq_iff_eq] at h
    simp [upperFirstWord, charToUppercase, h.1, h.2]

theorem segmentsRel_map {ws vs : List (List Char)} (h : segmentsRel ws vs = true) :
    ws.map upperFirstWord = vs.map upperFirstWord := by
  match ws, vs with
  | [], [] => rfl
  | [], _ :: _ => simp [segmentsRel] at h
  | _ :: _, [] => simp [segmentsRel] at h
  | w :: ws', v :: vs' =>
    simp only [segmentsRel, Bool.and_eq_true] at h
    simp [List.map, wordRel_upperFirst h.1, segmentsRel_map h.2]

theorem headersInsert_overwrite (hs : List (HeaderName × String)) (k : HeaderName)
    (v1 v2 : String) : headersInsert (headersInsert hs k v1) k v2 = headersInsert hs k v2 := by
  induction hs with
  | nil => simp [headersInsert]
  | cons e rest ih =>
    by_cases h : e.1 = k
    · simp [headersInsert, h]
    · simp [headersInsert, h, ih]

/-- C2 amended: header names whose hyphen-segments differ at most in the
case of their *first* character normalize to the identical `HeaderName`
(so inserting under one then the other overwrites the same `Headers`
entry).  Segment tails are preserved as-is by the normalization
(`chars.as_str()`), so names differing in later-character case — such as
`"CONTENT-TYPE"` vs `"Content-Type"` — do *not* compare equal. -/
theorem headerName_normalization (s t : String)
    (h : segmentsRel (splitOnChar '-' s.data) (splitOnChar '-' t.data) = true) :
    HeaderName.fromString s = HeaderName.fromString t ∧
    ∀ (hs : List (HeaderName × String)) (v1 v2 : String),
      headersInsert (headersInsert hs (HeaderName.fromString s) v1)
          (HeaderName.fromString t) v2 =
        headersInsert hs (HeaderName.fromString s) v2 := by
  have heq : HeaderName.fromString s = HeaderName.fromString t := by
    simp [HeaderName.fromString, segmentsRel_map h]
  refine ⟨heq, fun hs v1 v2 => ?_⟩
  rw [← heq, headersInsert_overwrite]

/-- C2 amended, witness. -/
theorem headerName_normalization_witness :
    HeaderName.fromString "content-type" = HeaderName.fromString "Content-Type" :=
  (headerName_normalization "content-type" "Content-Type" (by decide)).1

/-- C2 counterexample: `"CONTENT-TYPE"` does *not* normalize to the same
stored `HeaderName` as `"Content-Type"` or `"content-type"` — the
normalization uppercases only each segment's first character and leaves
the tail unchanged, so `"CONTENT-TYPE"` is stored as `"CONTENT-TYPE"`. -/
theorem headerName_case_counterexample :
    HeaderName.fromString "CONTENT-TYPE" ≠ HeaderName.fromString "Content-Type" ∧
    HeaderName.fromString "CONTENT-TYPE" ≠ HeaderName.fromString "content-type" ∧
    HeaderName.fromString "CONTENT-TYPE" = ⟨"CONTENT-TYPE"⟩ := by
  decide

/-- C8: a successfully parsed request whose method/path matches no
registered route is answered by the default `Response` (status code 200)
with no handler invoked: the dispatch result does not depend on the
handler table. -/
theorem no_route_default_response (routes : List Route) (req : HTTPRequest)
    (h : match_route req.method (pathToSegments req.path) routes = some none) :
    (∀ handlers, handleRequestApp routes handlers req = some (.ok Response.default)) ∧
    Response.default.status_code = 200 := by
  refine ⟨fun handlers => ?_, by decide⟩
  simp only [handleRequestApp, routeRequest, h]

/-- C8 witness. -/
theorem no_route_default_response_witness :
    (∀ handlers, handleRequestApp [] handlers ⟨[], .GET, "/x", none⟩ =
      some (.ok Response.default)) ∧ Response.default.status_code = 200 :=
  no_route_default_response [] ⟨[], .GET, "/x", none⟩ (by decide)

/-- C9: when request parsing fails with any `ParsingError`, the
connection handler propagates the error to the task boundary and writes
nothing: the serialized output is empty, so the client receives zero
response bytes. -/
theorem parse_failure_writes_nothing (routes : List Route) (handlers)
    (s : List Char) (e : ParsingError) (h : parse_http s = some (.error e)) :
    handle_connection routes handlers s = some (.error (.ParsingError e), "") := by
  simp only [handle_connection, h]

/-- C9 witness. -/
theorem parse_failure_writes_nothing_witness :
    handle_connection [] (fun _ _ _ => .error "h") [] =
      some (.error (.ParsingError .Interrupted), "") :=
  parse_failure_writes_nothing [] (fun _ _ _ => .error "h") [] .Interrupted (by decide)

theorem collectHeaderLines_no_blank (L : List (List Char)) (lines : List String)
    (h : ∀ l ∈ L, trimCRLF l ≠ []) : collectHeaderLines L lines = .error .Interrupted := by
  induction L generalizing lines with
  | nil => rfl
  | cons l rest ih =>
    simp only [collectHeaderLines]
    rw [if_neg (h l (by simp))]
    exact ih _ (fun l' hl' => h l' (by simp [hl']))

/-- C3 amended: a stream whose `read_line` decomposition contains no
blank line — in particular one that ends before any line at all, and one
that ends after one or more non-blank lines — fails with `Interrupted`
(EOF is observed as `read_line` returning an empty string, `http.rs`
88-91); `NullRequest` is produced exactly when the *first* line is blank
after CRLF trimming. -/
theorem stream_exhaustion_errors :
    (∀ s : List Char, (∀ l ∈ streamLines s, trimCRLF l ≠ []) →
      parse_http s = some (.error .Interrupted)) ∧
    (∀ (s : List Char) (l : List Char) (ls : List (List Char)),
      streamLines s = l :: ls → trimCRLF l = [] →
      parse_http s = some (.error .NullRequest)) := by
  constructor
  · intro s h
    simp only [parse_http, collectHeaderLines_no_blank (streamLines s) [] h]
  · intro s l ls hs hl
    simp [parse_http, hs, collectHeaderLines, hl]

/-- C3 amended, witness. -/
theorem stream_exhaustion_errors_witness :
    parse_http "GET / HTTP/1.1\r\n".data = some (.error .Interrupted) ∧
    parse_http "\r\n".data = some (.error .NullRequest) :=
  ⟨stream_exhaustion_errors.1 _ (by decide),
   stream_exhaustion_errors.2 "\r\n".data "\r\n".data [] (by decide) (by decide)⟩

/-- C3 counterexample: a stream that reaches end-of-stream before any
line has been read — the empty stream — fails with `Interrupted`, not
`NullRequest` as claimed. -/
theorem empty_stream_interrupted :
    parse_http [] = some (.error .Interrupted) ∧
    ParsingError.Interrupted ≠ ParsingError.NullRequest := by
  decide

theorem scan_no_wildcard {path : List String} {ts : List RouteToken}
    (hw : ∀ t ∈ ts, t ≠ RouteToken.WILDCARD) :
    ∀ {i p0 q0 w0 p q w : Nat}, scanTokens path ts i p0 q0 w0 = .scores p q w → w = w0 := by
  induction ts with
  | nil =>
    intro i p0 q0 w0 p q w h
    simp only [scanTokens, ScanResult.scores.injEq] at h
    exact h.2.2.symm
  | cons t rest ih =>
    intro i p0 q0 w0 p q w h
    have hrest : ∀ t' ∈ rest, t' ≠ RouteToken.WILDCARD := fun t' ht' => hw t' (by simp [ht'])
    match t with
    | .PATH lit =>
      simp only [scanTokens] at h
      cases hg : path.get? i with
      | none => rw [hg] at h; cases h
      | some seg =>
        rw [hg] at h
        dsimp only at h
        by_cases hls : lit = seg
        · rw [if_pos hls] at h; exact ih hrest h
        · rw [if_neg hls] at h; cases h
    | .PARAMETER name =>
      simp only [scanTokens] at h
      exact ih hrest h
    | .WILDCARD => exact absurd rfl (hw .WILDCARD (by simp))

theorem scan_single_wildcard {path : List String} :
    ∀ (ts : List RouteToken) (k i p0 q0 w0 p q w : Nat),
      ts.get? k = some RouteToken.WILDCARD →
      (∀ j, ts.get? j = some RouteToken.WILDCARD → j = k) →
      scanTokens path ts i p0 q0 w0 = .scores p q w →
      w = w0 + (path.length + 1 - (i + k)) := by
  intro ts
  induction ts with
  | nil => intro k i p0 q0 w0 p q w hk _ _; simp [List.get?] at hk
  | cons t rest ih =>
    intro k i p0 q0 w0 p q w hk huniq hscan
    match k with
    | 0 =>
      have ht : t = RouteToken.WILDCARD := by simpa [List.get?] using hk
      subst ht
      simp only [scanTokens] at hscan
      by_cases hlt : path.length + 1 < i
      · rw [if_pos hlt] at hscan; cases hscan
      · rw [if_neg hlt] at hscan
        have hnw : ∀ t' ∈ rest, t' ≠ RouteToken.WILDCARD := by
          intro t' ht' heq
          obtain ⟨j, hj⟩ := List.get?_of_mem ht'
          subst heq
          have : j + 1 = 0 := huniq (j + 1) (by simpa [List.get?] using hj)
          omega
        have := scan_no_wildcard hnw hscan
        omega
    | k' + 1 =>
      have hrest : rest.get? k' = some RouteToken.WILDCARD := by simpa [List.get?] using hk
      have hut : ∀ j, rest.get? j = some RouteToken.WILDCARD → j = k' := by
        intro j hj
        have : j + 1 = k' + 1 := huniq (j + 1) (by simpa [List.get?] using hj)
        omega
      have htw : t ≠ RouteToken.WILDCARD := by
        intro heq
        subst heq
        have : (0 : Nat) = k' + 1 := huniq 0 (by simp [List.get?])
        omega
      match t with
      | .PATH lit =>
        simp only [scanTokens] at hscan
        cases hg : path.get? i with
        | none => rw [hg] at hscan; cases hscan
        | some seg =>
          rw [hg] at hscan
          dsimp only at hscan
          by_cases hls : lit = seg
          · rw [if_pos hls] at hscan
            have := ih k' (i + 1) (p0 + 1) q0 w0 p q w hrest hut hscan
            omega
          · rw [if_neg hls] at hscan; cases hscan
      | .PARAMETER name =>
        simp only [scanTokens] at hscan
        have := ih k' (i + 1) p0 (q0 + 1) w0 p q w hrest hut hscan
        omega
      | .WILDCARD => exact absurd rfl htw

/-- C5 amended: a candidate's single `Wildcard` token at index `i`
contributes a wildcard score of `path.len() + 1 - i`, i.e. (remaining
segment count from `i`) + 1, where the remaining count is
`path.len() - i` — not `(remaining) + 1 - i`. -/
theorem wildcard_score_contribution (path : List String) (ts : List RouteToken)
    (i p q w : Nat) (hk : ts.get? i = some RouteToken.WILDCARD)
    (huniq : ∀ j, ts.get? j = some RouteToken.WILDCARD → j = i)
    (hscan : scanTokens path ts 0 0 0 0 = .scores p q w) :
    w = path.length + 1 - i := by
  have := scan_single_wildcard ts i 0 0 0 0 p q w hk huniq hscan
  omega

/-- C5 amended, witness. -/
theorem wildcard_score_contribution_witness :
    (2 : Nat) = List.length ["a", "b"] + 1 - 1 :=
  wildcard_score_contribution ["a", "b"] [RouteToken.PATH "a", RouteToken.WILDCARD] 1 1 0 2
    (by decide)
    (by
      intro j hj
      match j with
      | 0 => simp [List.get?] at hj
      | 1 => rfl
      | n + 2 => simp [List.get?] at hj)
    (by decide)

/-- C6: between two surviving candidates, the one with strictly more
literal-segment matches is returned by `match_route`, in either
registration order (route tables `[A, B]` and `[B, A]`). -/
theorem more_literal_matches_wins (method : Method) (path : List String) (A B : Route)
    (pA qA wA pB qB wB : Nat)
    (hA : survives method path A pA qA wA) (hB : survives method path B pB qB wB)
    (hlt : pB < pA) :
    match_route method path [A, B] = some (some (A, pA, qA, wA)) ∧
    match_route method path [B, A] = some (some (A, pA, qA, wA)) := by
  obtain ⟨hAm, hAreq, hAscan, hArej⟩ := hA
  obtain ⟨hBm, hBreq, hBscan, hBrej⟩ := hB
  have himpA0 : pA > 0 ∨ (pA = 0 ∧ qA > 0) ∨ (pA = 0 ∧ qA = 0 ∧ wA < 0)
      ∨ (pA = 0 ∧ True ∧ qA = 0 ∧ True ∧ wA > 0) := by simp only [true_and]; omega
  have himpB0 : pB > 0 ∨ (pB = 0 ∧ qB > 0) ∨ (pB = 0 ∧ qB = 0 ∧ wB < 0)
      ∨ (pB = 0 ∧ True ∧ qB = 0 ∧ True ∧ wB > 0) := by simp only [true_and]; omega
  have hnoB : ¬(pB > pA ∨ (pB = pA ∧ qB > qA) ∨ (pB = pA ∧ qB = qA ∧ wB < wA)
      ∨ (pB = 0 ∧ pA = 0 ∧ qB = 0 ∧ qA = 0 ∧ wB > wA)) := by omega
  have hyesA : pA > pB ∨ (pA = pB ∧ qA > qB) ∨ (pA = pB ∧ qA = qB ∧ wA < wB)
      ∨ (pA = 0 ∧ pB = 0 ∧ qA = 0 ∧ qB = 0 ∧ wA > wB) := by omega
  constructor
  · have hfilter : [A, B].filter (fun r => r.method = method) = [A, B] := by
      simp [List.filter, hAm, hBm]
    simp only [match_route, hfilter, matchLoop]
    rw [if_neg (Nat.not_lt.mpr hAreq), hAscan]
    dsimp only
    rw [if_neg hArej, if_pos himpA0, if_neg (Nat.not_lt.mpr hBreq), hBscan]
    dsimp only
    rw [if_neg hBrej, if_neg hnoB]
  · have hfilter : [B, A].filter (fun r => r.method = method) = [B, A] := by
      simp [List.filter, hAm, hBm]
    simp only [match_route, hfilter, matchLoop]
    rw [if_neg (Nat.not_lt.mpr hBreq), hBscan]
    dsimp only
    rw [if_neg hBrej, if_pos himpB0, if_neg (Nat.not_lt.mpr hAreq), hAscan]
    dsimp only
    rw [if_neg hArej, if_pos hyesA]

/-- C6 witness. -/
theorem more_literal_matches_wins_witness :
    match_route .GET ["a"] [⟨.GET, [.PATH "a"]⟩, ⟨.GET, [.PARAMETER "x"]⟩] =
      some (some (⟨.GET, [.PATH "a"]⟩, 1, 0, 0)) ∧
    match_route .GET ["a"] [⟨.GET, [.PARAMETER "x"]⟩, ⟨.GET, [.PATH "a"]⟩] =
      some (some (⟨.GET, [.PATH "a"]⟩, 1, 0, 0)) :=
  more_literal_matches_wins .GET ["a"] ⟨.GET, [.PATH "a"]⟩ ⟨.GET, [.PARAMETER "x"]⟩
    1 0 0 0 1 0 (by constructor <;> decide) (by constructor <;> decide) (by decide)

theorem parseRequestLine_not3 (line : String)
    (h : ((splitOnChar ' ' line.data).map String.mk).length ≠ 3) :
    parseRequestLine line = .error .InvalidFirstLine := by
  unfold parseRequestLine
  rcases hs : (splitOnChar ' ' line.data).map String.mk with _ | ⟨a, _ | ⟨b, _ | ⟨c, _ | ⟨d, tl⟩⟩⟩⟩
  · rfl
  · rfl
  · rfl
  · exact absurd (by simp [hs]) h
  · rfl

theorem parseRequestLine_split (line t0 t1 t2 : String) (m : Method)
    (hsplit : (splitOnChar ' ' line.data).map String.mk = [t0, t1, t2])
    (hm : Method.try_from t0 = .ok m) :
    parseRequestLine line =
      (if byteLen (splitn2Question t1.data).1 > MAX_PATH_LEN then
        .error (.PathTooLong MAX_PATH_LEN (byteLen (splitn2Question t1.data).1))
      else if (splitn2Question t1.data).1 = [] ∨ (splitn2Question t1.data).1.head? ≠ some '/' then
        .error (.InvalidPath (String.mk (splitn2Question t1.data).1))
      else .ok (m, String.mk (splitn2Question t1.data).1,
        (splitn2Question t1.data).2.map String.mk)) := by
  unfold parseRequestLine
  rw [hsplit]
  dsimp only
  rw [hm]

/-- C7 amended: given a successfully collected header block, the request
line checks run in sequence — a first line with other than 3
space-separated tokens fails with `InvalidFirstLine`; with 3 tokens and a
*valid method*, a path longer than 2048 bytes fails with `PathTooLong`;
with 3 tokens, a valid method and a path within the length limit, an
empty path or one not beginning with `/` fails with `InvalidPath`.  (An
invalid method fails with `InvalidMethod` before any path check, and an
over-long path fails with `PathTooLong` even when it also lacks a leading
`/`.) -/
theorem request_line_error_cases (s : List Char) (first : String) (rest : List String)
    (hok : collectHeaderLines (streamLines s) [] = .ok (first :: rest)) :
    (((splitOnChar ' ' first.data).map String.mk).length ≠ 3 →
      parse_http s = some (.error .InvalidFirstLine)) ∧
    ∀ t0 t1 t2 : String, (splitOnChar ' ' first.data).map String.mk = [t0, t1, t2] →
    ∀ m : Method, Method.try_from t0 = .ok m →
      (byteLen (splitn2Question t1.data).1 > MAX_PATH_LEN →
        parse_http s =
          some (.error (.PathTooLong MAX_PATH_LEN (byteLen (splitn2Question t1.data).1)))) ∧
      (byteLen (splitn2Question t1.data).1 ≤ MAX_PATH_LEN →
        ((splitn2Question t1.data).1 = [] ∨ (splitn2Question t1.data).1.head? ≠ some '/') →
        parse_http s = some (.error (.InvalidPath (String.mk (splitn2Question t1.data).1)))) := by
  constructor
  · intro h3
    simp only [parse_http, hok, parseRequestLine_not3 first h3]
  · intro t0 t1 t2 hsplit m hm
    have hred := parseRequestLine_split first t0 t1 t2 m hsplit hm
    constructor
    · intro hlong
      simp only [parse_http, hok, hred, if_pos hlong]
    · intro hshort hbad
      rw [if_neg (by omega : ¬ byteLen (splitn2Question t1.data).1 > MAX_PATH_LEN),
        if_pos hbad] at hred
      simp only [parse_http, hok, hred]

/-- C7 amended, witness. -/
theorem request_line_error_cases_witness :
    parse_http "GET  / HTTP/1.1\r\n\r\n".data = some (.error .InvalidFirstLine) ∧
    parse_http "GET bar HTTP/1.1\r\n\r\n".data =
      some (.error (.InvalidPath (String.mk (splitn2Question "bar".data).1))) :=
  ⟨(request_line_error_cases "GET  / HTTP/1.1\r\n\r\n".data "GET  / HTTP/1.1" [] (by decide)).1
      (by decide),
   ((request_line_error_cases "GET bar HTTP/1.1\r\n\r\n".data "GET bar HTTP/1.1" [] (by decide)).2
      "GET" "bar" "HTTP/1.1" (by decide) .GET (by decide)).2 (by decide) (by decide)⟩

/-- C7 counterexample: the request `"FOO bar HTTP/1.1"` has a path
component (`"bar"`) that does not begin with `/`, yet `parse_http` fails
with `InvalidMethod "FOO"`, not `InvalidPath` — the method check runs
before the path checks. -/
theorem invalid_method_before_path :
    parse_http "FOO bar HTTP/1.1\r\n\r\n".data = some (.error (.InvalidMethod "FOO")) ∧
    ParsingError.InvalidMethod "FOO" ≠ ParsingError.InvalidPath "bar" := by
  decide

theorem requiredTokens_path (lit : String) (rest : List RouteToken) :
    requiredTokens (.PATH lit :: rest) = 1 + requiredTokens rest := by
  simp [requiredTokens, List.filter]
  omega

theorem requiredTokens_param (name : String) (rest : List RouteToken) :
    requiredTokens (.PARAMETER name :: rest) = 1 + requiredTokens rest := by
  simp [requiredTokens, List.filter]
  omega

theorem requiredTokens_wild (rest : List RouteToken) :
    requiredTokens (.WILDCARD :: rest) = requiredTokens rest := by
  simp [requiredTokens, List.filter]

theorem wildcardFinal_tail {t : RouteToken} {rest : List RouteToken}
    (h : wildcardFinal (t :: rest) = true) : wildcardFinal rest = true := by
  match rest with
  | [] => rfl
  | r :: rs =>
    by_cases ht : t = RouteToken.WILDCARD
    · simp only [wildcardFinal, if_pos ht] at h
      cases h
    · simpa only [wildcardFinal, if_neg ht] using h

theorem wildcardFinal_wild {rest : List RouteToken}
    (h : wildcardFinal (RouteToken.WILDCARD :: rest) = true) : rest = [] := by
  match rest with
  | [] => rfl
  | r :: rs => simp [wildcardFinal] at h

theorem scan_total {path : List String} :
    ∀ (ts : List RouteToken) (i p q w : Nat), wildcardFinal ts = true →
      i + requiredTokens ts ≤ path.length →
      scanTokens path ts i p q w ≠ .panic := by
  intro ts
  induction ts with
  | nil => intro i p q w _ _ h; simp [scanTokens] at h
  | cons t rest ih =>
    intro i p q w hwf hreq hpanic
    match t with
    | .PATH lit =>
      rw [requiredTokens_path] at hreq
      have hi : i < path.length := by omega
      simp only [scanTokens] at hpanic
      cases hg : path.get? i with
      | none =>
        rw [List.get?_eq_none] at hg
        omega
      | some seg =>
        rw [hg] at hpanic
        dsimp only at hpanic
        by_cases hls : lit = seg
        · rw [if_pos hls] at hpanic
          exact ih (i + 1) (p + 1) q w (wildcardFinal_tail hwf) (by omega) hpanic
        · rw [if_neg hls] at hpanic
          cases hpanic
    | .PARAMETER name =>
      rw [requiredTokens_param] at hreq
      simp only [scanTokens] at hpanic
      exact ih (i + 1) p (q + 1) w (wildcardFinal_tail hwf) (by omega) hpanic
    | .WILDCARD =>
      have hrest : rest = [] := wildcardFinal_wild hwf
      subst hrest
      rw [requiredTokens_wild] at hreq
      have hzero : requiredTokens ([] : List RouteToken) = 0 := rfl
      simp only [scanTokens] at hpanic
      rw [if_neg (by omega)] at hpanic
      cases hpanic

theorem extract_total {path : List String} :
    ∀ (ts : List RouteToken) (i : Nat) (acc : List (String × String)),
      wildcardFinal ts = true → i + requiredTokens ts ≤ path.length →
      extractParams path ts i acc ≠ none := by
  intro ts
  induction ts with
  | nil => intro i acc _ _ h; simp [extractParams] at h
  | cons t rest ih =>
    intro i acc hwf hreq hnone
    match t with
    | .PARAMETER name =>
      rw [requiredTokens_param] at hreq
      have hi : i < path.length := by omega
      simp only [extractParams] at hnone
      cases hg : path.get? i with
      | none =>
        rw [List.get?_eq_none] at hg
        omega
      | some seg =>
        rw [hg] at hnone
        dsimp only at hnone
        exact ih (i + 1) (paramsInsert acc name seg) (wildcardFinal_tail hwf) (by omega) hnone
    | .PATH lit =>
      rw [requiredTokens_path] at hreq
      simp only [extractParams] at hnone
      exact ih (i + 1) acc (wildcardFinal_tail hwf) (by omega) hnone
    | .WILDCARD =>
      have hrest : rest = [] := wildcardFinal_wild hwf
      subst hrest
      simp [extractParams] at hnone

theorem matchLoop_total (path : List String) :
    ∀ (rs : List Route) (hp hq hw : Nat) (best : Option Route),
      (∀ r ∈ rs, wildcardFinal r.tokens = true) →
      matchLoop path rs hp hq hw best ≠ none := by
  intro rs
  induction rs with
  | nil => intro hp hq hw best _ h; simp [matchLoop] at h
  | cons r rest ih =>
    intro hp hq hw best hwf h
    have htail : ∀ r' ∈ rest, wildcardFinal r'.tokens = true :=
      fun r' hr' => hwf r' (by simp [hr'])
    simp only [matchLoop] at h
    by_cases h1 : path.length < requiredTokens r.tokens
    · rw [if_pos h1] at h
      exact ih hp hq hw best htail h
    · rw [if_neg h1] at h
      cases hscan : scanTokens path r.tokens 0 0 0 0 with
      | panic =>
        exact scan_total r.tokens 0 0 0 0 (hwf r (by simp)) (by omega) hscan
      | reject =>
        rw [hscan] at h
        exact ih hp hq hw best htail h
      | scores p q w =>
        rw [hscan] at h
        dsimp only at h
        split at h
        · exact ih hp hq hw best htail h
        · split at h
          · exact ih p q w (some r) htail h
          · exact ih hp hq hw best htail h

theorem matchLoop_best_wf (path : List String) :
    ∀ (rs : List Route) (hp hq hw : Nat) (best : Option Route) (r' : Route)
      (hp' hq' hw' : Nat),
      (∀ r, best = some r →
        requiredTokens r.tokens ≤ path.length ∧ wildcardFinal r.tokens = true) →
      (∀ r ∈ rs, wildcardFinal r.tokens = true) →
      matchLoop path rs hp hq hw best = some (some r', hp', hq', hw') →
      requiredTokens r'.tokens ≤ path.length ∧ wildcardFinal r'.tokens = true := by
  intro rs
  induction rs with
  | nil =>
    intro hp hq hw best r' hp' hq' hw' hbest _ h
    simp only [matchLoop, Option.some.injEq, Prod.mk.injEq] at h
    exact hbest r' h.1
  | cons r rest ih =>
    intro hp hq hw best r' hp' hq' hw' hbest hwf h
    have htail : ∀ r'' ∈ rest, wildcardFinal r''.tokens = true :=
      fun r'' hr'' => hwf r'' (by simp [hr''])
    simp only [matchLoop] at h
    by_cases h1 : path.length < requiredTokens r.tokens
    · rw [if_pos h1] at h
      exact ih hp hq hw best r' hp' hq' hw' hbest htail h
    · rw [if_neg h1] at h
      cases hscan : scanTokens path r.tokens 0 0 0 0 with
      | panic => rw [hscan] at h; cases h
      | reject =>
        rw [hscan] at h
        exact ih hp hq hw best r' hp' hq' hw' hbest htail h
      | scores p q w =>
        rw [hscan] at h
        dsimp only at h
        split at h
        · exact ih hp hq hw best r' hp' hq' hw' hbest htail h
        · split at h
          · refine ih p q w (some r) r' hp' hq' hw' ?_ htail h
            intro r'' hr''
            cases hr''
            exact ⟨by omega, hwf r (by simp)⟩
          · exact ih hp hq hw best r' hp' hq' hw' hbest htail h

/-- C10: for every route table whose routes carry a `WILDCARD` at most
once and only as their final token, `match_route` and the subsequent
parameter extraction are total — no `path[index]` access is out of
bounds and the `path.len() + 1 - index` wildcard score never
underflows (no `.panic` outcome is reachable, so the routing part of
`App::handle_request` never panics). -/
theorem routing_is_total (routes : List Route) (method : Method) (rawPath : String)
    (hwf : ∀ r ∈ routes, wildcardFinal r.tokens = true) :
    match_route method (pathToSegments rawPath) routes ≠ none ∧
    routeRequest routes method rawPath ≠ none := by
  have hwff : ∀ r ∈ routes.filter (fun r => r.method = method),
      wildcardFinal r.tokens = true :=
    fun r hr => hwf r (List.mem_of_mem_filter hr)
  have hloop := matchLoop_total (pathToSegments rawPath)
    (routes.filter (fun r => r.method = method)) 0 0 0 none hwff
  cases hml : matchLoop (pathToSegments rawPath)
      (routes.filter (fun r => r.method = method)) 0 0 0 none with
  | none => exact absurd hml hloop
  | some val =>
    obtain ⟨b, hp, hq, hw⟩ := val
    cases b with
    | none =>
      constructor
      · simp [match_route, hml]
      · simp [routeRequest, match_route, hml]
    | some r' =>
      have hgood := matchLoop_best_wf (pathToSegments rawPath)
        (routes.filter (fun r => r.method = method)) 0 0 0 none r' hp hq hw
        (fun r hr => by cases hr) hwff hml
      have hbp : buildParams hq r'.tokens (pathToSegments rawPath) ≠ none := by
        unfold buildParams
        split
        · exact extract_total r'.tokens 0 [] hgood.2 (by omega)
        · simp
      constructor
      · simp [match_route, hml]
      · simp only [routeRequest, match_route, hml]
        cases hb : buildParams hq r'.tokens (pathToSegments rawPath) with
        | none => exact absurd hb hbp
        | some ps => simp

/-- C10 witness. -/
theorem routing_is_total_witness :
    match_route .GET (pathToSegments "/x/y") scenarioRoutes ≠ none ∧
    routeRequest scenarioRoutes .GET "/x/y" ≠ none :=
  routing_is_total scenarioRoutes .GET "/x/y" (by decide)

end Bingus
